import Mathlib

/-!
Shallow embedding of the FractionalToken and RentDistribution Solidity
contracts (src/contracts/FractionalToken.sol).  Machine integers are
modelled as Nat: all the Solidity arithmetic in these contracts is
checked (Solidity >= 0.8 / SafeMath), so an overflowing or underflowing
operation reverts rather than wrapping, and on the success paths the
values agree with unbounded Nat arithmetic.  A reverting call is
modelled as an Except.error that leaves the caller with the original
state (EVM revert semantics: a failed call produces no state change).
-/

namespace FT

/-- Addresses are modelled as naturals.  Address 0 plays the role of the
Solidity zero address (transfers from or to it revert inside the
OpenZeppelin ERC20 code), and address 1 is the FractionalToken contract
itself, which holds the unsold treasury tokens. -/
abbrev Addr := Nat

def contractAddr : Addr := 1

/-- External environment of the FractionalToken contract: the KYC
registry held by PropertyNFT, the contract owner and the property
owner.  These are fixed for the duration of a trace. -/
structure Env where
  kyc : Addr → Bool
  owner : Addr
  propertyOwner : Addr

/-- State of one FractionalToken contract: the ERC20 balances, the
investors registry, the TokenInfo struct fields used by the claims, the
pause flag and the contract's native-coin balance. -/
structure S where
  balances : Addr → Nat
  investors : List Addr
  isInvestorF : Addr → Bool
  tokTotalSupply : Nat
  availableSupply : Nat
  pricePerToken : Nat
  isActive : Bool
  paused : Bool
  contractEth : Nat
  totalInvested : Nat

inductive Err where
  | NotKYC
  | RecipientNotKYC
  | NotOwner
  | NotPropertyOwner
  | TokenInactive
  | ContractPaused
  | ZeroAmount
  | InsufficientSupply
  | InsufficientPayment
  | InsufficientBalance
  | InsufficientContractBalance
  | ZeroAddress
  deriving DecidableEq

/-- Constructor of FractionalToken: stores the TokenInfo struct with
availableSupply = totalSupply and mints the whole supply to the
contract itself. -/
def initState (totalSupply pricePerToken : Nat) : S :=
  { balances := Function.update (fun _ => 0) contractAddr totalSupply
    investors := []
    isInvestorF := fun _ => false
    tokTotalSupply := totalSupply
    availableSupply := totalSupply
    pricePerToken := pricePerToken
    isActive := true
    paused := false
    contractEth := 0
    totalInvested := 0 }

/-- OpenZeppelin ERC20 _transfer: reverts on the zero address or on an
insufficient sender balance, otherwise debits the sender and credits
the recipient. -/
def erc20Transfer (b : Addr → Nat) (src dst : Addr) (amt : Nat) :
    Except Err (Addr → Nat) :=
  if src = 0 then .error .ZeroAddress
  else if dst = 0 then .error .ZeroAddress
  else if b src < amt then .error .InsufficientBalance
  else
    let b1 := Function.update b src (b src - amt)
    .ok (Function.update b1 dst (b1 dst + amt))

/-- FractionalToken.purchaseTokens.  The modifiers run in source order:
onlyKYCVerified, then onlyActiveToken, then whenNotPaused; the body then
checks the amount, the available supply and the payment, moves tokens
from the contract to the buyer, decrements availableSupply, records the
investment and keeps the purchase price (refunding any excess). -/
def purchaseTokens (env : Env) (s : S) (sender : Addr) (amt payment : Nat) :
    Except Err S :=
  if env.kyc sender = false then .error .NotKYC
  else if s.isActive = false then .error .TokenInactive
  else if s.paused then .error .ContractPaused
  else if amt = 0 then .error .ZeroAmount
  else if s.availableSupply < amt then .error .InsufficientSupply
  else if payment < amt * s.pricePerToken then .error .InsufficientPayment
  else
    match erc20Transfer s.balances contractAddr sender amt with
    | .error e => .error e
    | .ok b =>
        .ok { s with
              balances := b
              availableSupply := s.availableSupply - amt
              investors :=
                if s.isInvestorF sender then s.investors
                else s.investors ++ [sender]
              isInvestorF := Function.update s.isInvestorF sender true
              totalInvested := s.totalInvested + amt * s.pricePerToken
              contractEth := s.contractEth + amt * s.pricePerToken }

/-- FractionalToken.sellTokens.  Modifiers: onlyKYCVerified then
whenNotPaused (there is no onlyActiveToken modifier on this function);
the body checks the amount, the seller's balance and the contract's
native-coin balance, moves tokens back to the contract, increments
availableSupply and pays the proceeds out. -/
def sellTokens (env : Env) (s : S) (sender : Addr) (amt : Nat) :
    Except Err S :=
  if env.kyc sender = false then .error .NotKYC
  else if s.paused then .error .ContractPaused
  else if amt = 0 then .error .ZeroAmount
  else if s.balances sender < amt then .error .InsufficientBalance
  else if s.contractEth < amt * s.pricePerToken then
    .error .InsufficientContractBalance
  else
    match erc20Transfer s.balances sender contractAddr amt with
    | .error e => .error e
    | .ok b =>
        .ok { s with
              balances := b
              availableSupply := s.availableSupply + amt
              contractEth := s.contractEth - amt * s.pricePerToken }

/-- FractionalToken.transfer: the override only adds KYC checks on both
sides around the plain ERC20 transfer.  It has no whenNotPaused
modifier and does not touch availableSupply. -/
def transfer (env : Env) (s : S) (sender dst : Addr) (amt : Nat) :
    Except Err S :=
  if env.kyc sender = false then .error .NotKYC
  else if env.kyc dst = false then .error .RecipientNotKYC
  else
    match erc20Transfer s.balances sender dst amt with
    | .error e => .error e
    | .ok b => .ok { s with balances := b }

/-- FractionalToken.pause (onlyOwner). -/
def pauseContract (env : Env) (s : S) (sender : Addr) : Except Err S :=
  if sender = env.owner then .ok { s with paused := true }
  else .error .NotOwner

/-- FractionalToken.unpause (onlyOwner). -/
def unpauseContract (env : Env) (s : S) (sender : Addr) : Except Err S :=
  if sender = env.owner then .ok { s with paused := false }
  else .error .NotOwner

/-- FractionalToken.setTokenStatus (onlyPropertyOwner). -/
def setTokenStatus (env : Env) (s : S) (sender : Addr) (b : Bool) :
    Except Err S :=
  if sender = env.propertyOwner then .ok { s with isActive := b }
  else .error .NotPropertyOwner

/-- The receive and fallback functions just accept native coin. -/
def receiveEth (s : S) (v : Nat) : S :=
  { s with contractEth := s.contractEth + v }

/-- One externally-initiated call into the FractionalToken contract. -/
inductive Op where
  | purchase (sender : Addr) (amt payment : Nat)
  | sell (sender : Addr) (amt : Nat)
  | xfer (sender dst : Addr) (amt : Nat)
  | pauseC (sender : Addr)
  | unpauseC (sender : Addr)
  | setStatus (sender : Addr) (b : Bool)
  | deposit (sender : Addr) (v : Nat)

def Op.caller : Op → Addr
  | .purchase s _ _ => s
  | .sell s _ => s
  | .xfer s _ _ => s
  | .pauseC s => s
  | .unpauseC s => s
  | .setStatus s _ => s
  | .deposit s _ => s

/-- Execute one call; a reverting call leaves the state unchanged. -/
def applyOp (env : Env) (s : S) : Op → S
  | .purchase sn a p =>
      match purchaseTokens env s sn a p with
      | .ok s' => s'
      | .error _ => s
  | .sell sn a =>
      match sellTokens env s sn a with
      | .ok s' => s'
      | .error _ => s
  | .xfer sn d a =>
      match transfer env s sn d a with
      | .ok s' => s'
      | .error _ => s
  | .pauseC sn =>
      match pauseContract env s sn with
      | .ok s' => s'
      | .error _ => s
  | .unpauseC sn =>
      match unpauseContract env s sn with
      | .ok s' => s'
      | .error _ => s
  | .setStatus sn b =>
      match setTokenStatus env s sn b with
      | .ok s' => s'
      | .error _ => s
  | .deposit _ v => receiveEth s v

def run (env : Env) (s : S) (ops : List Op) : S :=
  ops.foldl (applyOp env) s

/-- Environment fact: the token contract has no code path that makes it
originate a call to its own public entry points, so every caller in a
trace is distinct from the contract's own address. -/
def Op.callerNotContract (op : Op) : Prop := op.caller ≠ contractAddr

/-- An ERC20 transfer whose recipient is the token contract itself is
the one balance mutation that bypasses the availableSupply accounting;
this predicate singles such transfers out. -/
def Op.noTransferToContract : Op → Prop
  | .xfer _ dst _ => dst ≠ contractAddr
  | _ => True

/-- Sum of the share balances of the holders listed in T. -/
def holdersSum (s : S) (T : Finset Addr) : Nat :=
  T.sum fun a => s.balances a

/-- T lists every non-contract address holding a nonzero balance. -/
def Covers (s : S) (T : Finset Addr) : Prop :=
  ∀ a : Addr, a ≠ contractAddr → s.balances a ≠ 0 → a ∈ T

/-- Conservation: holder balances plus availableSupply equal the
asset's total share count. -/
def Conserv (s : S) : Prop :=
  ∀ T : Finset Addr, contractAddr ∉ T → Covers s T →
    holdersSum s T + s.availableSupply = s.tokTotalSupply

end FT

namespace RD

abbrev Addr := Nat

inductive RDErr where
  | NotOwner
  | NotPropertyOwner
  | ContractPaused
  | ZeroAmount
  | InsufficientContractBalance
  | TokenNotRegistered
  | DistributionCompleted
  | AlreadyClaimed
  | NoDistribution
  deriving DecidableEq

/-- One Distribution struct of the RentDistribution contract.  The
fields keep their source names; totalRentCollected is the gross amount
passed to createDistribution. -/
structure Dist where
  totalRentCollected : Nat
  totalTokensAtDistribution : Nat
  isCompleted : Bool
  investorDistributions : Addr → Nat
  claimed : Addr → Bool
  investors : List Addr
  totalDistributed : Nat
  platformFee : Nat
  propertyOwnerFee : Nat

/-- The distribution built by RentDistribution.createDistribution from
a gross rentAmount, the two fee percentages (basis points) and the
snapshot of the fractional token (investor list, balances, total
supply).  The per-investor loop only writes a share for listed
investors with a positive balance; every other address keeps the
mapping default of zero. -/
def mkDistribution (rentAmount pfPct mgmtPct : Nat) (inv : List Addr)
    (balanceOf : Addr → Nat) (totalSupply : Nat) : Dist :=
  let platformFee := rentAmount * pfPct / 10000
  let managementFee := rentAmount * mgmtPct / 10000
  let distributionAmount := rentAmount - platformFee - managementFee
  { totalRentCollected := rentAmount
    totalTokensAtDistribution := totalSupply
    isCompleted := false
    investorDistributions := fun a =>
      if a ∈ inv ∧ 0 < balanceOf a then
        distributionAmount * balanceOf a / totalSupply
      else 0
    claimed := fun _ => false
    investors := inv
    totalDistributed := 0
    platformFee := platformFee
    propertyOwnerFee := managementFee }

/-- Net amount of a distribution: gross minus the two fees (the source
computes this value as distributionAmount at creation time). -/
def netAmount (d : Dist) : Nat :=
  d.totalRentCollected - d.platformFee - d.propertyOwnerFee

/-- Sum of the per-holder allocations over the distribution's investor
list. -/
def sumAllocations (d : Dist) : Nat :=
  (d.investors.map d.investorDistributions).sum

/-- Number of listed investors with a strictly positive allocation. -/
def countPositiveAllocations (d : Dist) : Nat :=
  d.investors.countP fun i => decide (0 < d.investorDistributions i)

/-- The allClaimed loop of _checkDistributionCompletion: true unless
some listed investor has a positive unclaimed allocation. -/
def allClaimedB (d : Dist) : Bool :=
  d.investors.all fun i => decide (d.investorDistributions i = 0) || d.claimed i

/-- RentDistribution._checkDistributionCompletion. -/
def checkDistributionCompletion (d : Dist) : Dist :=
  if allClaimedB d && !d.isCompleted then { d with isCompleted := true }
  else d

/-- RentDistribution.claimDistribution on one distribution (the pause
check lives in the state-level wrapper below).  On success it returns
the updated distribution and the amount transferred to the caller. -/
def claimDistribution (d : Dist) (caller : Addr) :
    Except RDErr (Dist × Nat) :=
  if d.isCompleted then .error .DistributionCompleted
  else if d.claimed caller then .error .AlreadyClaimed
  else if d.investorDistributions caller = 0 then .error .NoDistribution
  else
    .ok (checkDistributionCompletion
      { d with claimed := Function.update d.claimed caller true
               totalDistributed :=
                 d.totalDistributed + d.investorDistributions caller },
      d.investorDistributions caller)

/-- Result distribution of a claim, with reverts leaving the
distribution unchanged. -/
def applyClaim (d : Dist) (c : Addr) : Dist :=
  match claimDistribution d c with
  | .ok p => p.1
  | .error _ => d

/-- The loop body of RentDistribution.batchDistribute over a list of
investors, threading the distribution and collecting the payments made
as (investor, amount) pairs. -/
def batchLoop (d : Dist) : List Addr → Dist × List (Addr × Nat)
  | [] => (d, [])
  | i :: rest =>
    if !d.claimed i ∧ 0 < d.investorDistributions i then
      let amt := d.investorDistributions i
      let d1 : Dist :=
        { d with claimed := Function.update d.claimed i true
                 totalDistributed := d.totalDistributed + amt }
      let r := batchLoop d1 rest
      (r.1, (i, amt) :: r.2)
    else batchLoop d rest

/-- RentDistribution.batchDistribute on one distribution: its only
parameter besides the distribution is nothing at all — it walks the
whole investor list, then runs the completion check. -/
def batchDistribute (d : Dist) : Except RDErr (Dist × List (Addr × Nat)) :=
  if d.isCompleted then .error .DistributionCompleted
  else
    let r := batchLoop d d.investors
    .ok (checkDistributionCompletion r.1, r.2)

def batchResult (d : Dist) : Dist :=
  match batchDistribute d with
  | .ok p => p.1
  | .error _ => d

def batchPayments (d : Dist) : List (Addr × Nat) :=
  match batchDistribute d with
  | .ok p => p.2
  | .error _ => []

/-- Well-formedness established at creation: only listed investors can
carry a nonzero allocation. -/
def WfAlloc (d : Dist) : Prop :=
  ∀ a : Addr, d.investorDistributions a ≠ 0 → a ∈ d.investors

/-- The all-defaults Distribution struct that Solidity reads for an id
that was never created. -/
def defaultDist : Dist :=
  { totalRentCollected := 0
    totalTokensAtDistribution := 0
    isCompleted := false
    investorDistributions := fun _ => 0
    claimed := fun _ => false
    investors := []
    totalDistributed := 0
    platformFee := 0
    propertyOwnerFee := 0 }

/-- External environment of the RentDistribution contract: the contract
owner, the per-property owners from PropertyNFT, and the registered
fractional tokens' snapshot data (investor list, balances, total
supply) as read through the external calls in createDistribution. -/
structure SEnv where
  owner : Addr
  propOwner : Nat → Addr
  tokInvestors : Nat → List Addr
  tokBalance : Nat → Addr → Nat
  tokTotal : Nat → Nat

/-- Storage of the RentDistribution contract.  Distributions are kept
in creation order, so the list index is the distribution id and the
list length is distributionCounter. -/
structure RDState where
  contractBal : Nat
  totalRentCollected : Nat → Nat
  registered : Nat → Bool
  dists : List Dist
  platformFeePercentage : Nat
  managementFeePercentage : Nat
  paused : Bool

/-- RentDistribution.registerFractionalToken (onlyOwner). -/
def registerFractionalToken (env : SEnv) (s : RDState) (sender pid : Nat) :
    Except RDErr RDState :=
  if sender = env.owner then
    .ok { s with registered := Function.update s.registered pid true }
  else .error .NotOwner

/-- RentDistribution.depositRent.  Modifier order is onlyPropertyOwner
then whenNotPaused; the body requires a positive value and a registered
token, then accrues the value into the contract balance and the
per-property totalRentCollected accumulator. -/
def depositRent (env : SEnv) (s : RDState) (sender pid value : Nat) :
    Except RDErr RDState :=
  if env.propOwner pid ≠ sender then .error .NotPropertyOwner
  else if s.paused then .error .ContractPaused
  else if value = 0 then .error .ZeroAmount
  else if s.registered pid = false then .error .TokenNotRegistered
  else
    .ok { s with
          contractBal := s.contractBal + value
          totalRentCollected :=
            Function.update s.totalRentCollected pid
              (s.totalRentCollected pid + value) }

/-- RentDistribution.createDistribution.  Its funds precondition is
only that the contract's global balance covers rentAmount; the
per-property totalRentCollected accumulator is neither read nor
debited.  The two fees leave the contract immediately. -/
def createDistributionS (env : SEnv) (s : RDState) (sender pid amount : Nat) :
    Except RDErr RDState :=
  if env.propOwner pid ≠ sender then .error .NotPropertyOwner
  else if s.paused then .error .ContractPaused
  else if amount = 0 then .error .ZeroAmount
  else if s.contractBal < amount then .error .InsufficientContractBalance
  else if s.registered pid = false then .error .TokenNotRegistered
  else
    let d := mkDistribution amount s.platformFeePercentage
      s.managementFeePercentage (env.tokInvestors pid)
      (env.tokBalance pid) (env.tokTotal pid)
    .ok { s with
          dists := s.dists ++ [d]
          contractBal := s.contractBal - d.platformFee - d.propertyOwnerFee }

/-- RentDistribution.claimDistribution at storage level: whenNotPaused
is the first check, then the per-distribution logic runs and the
claimed amount leaves the contract. -/
def claimDistributionS (env : SEnv) (s : RDState) (sender did : Nat) :
    Except RDErr RDState :=
  if s.paused then .error .ContractPaused
  else
    match claimDistribution (s.dists.getD did defaultDist) sender with
    | .error e => .error e
    | .ok p =>
        .ok { s with
              dists := s.dists.set did p.1
              contractBal := s.contractBal - p.2 }

/-- RentDistribution.batchDistribute at storage level (onlyOwner, then
whenNotPaused). -/
def batchDistributeS (env : SEnv) (s : RDState) (sender did : Nat) :
    Except RDErr RDState :=
  if sender ≠ env.owner then .error .NotOwner
  else if s.paused then .error .ContractPaused
  else
    match batchDistribute (s.dists.getD did defaultDist) with
    | .error e => .error e
    | .ok p =>
        .ok { s with
              dists := s.dists.set did p.1
              contractBal := s.contractBal - (p.2.map Prod.snd).sum }

/-- RentDistribution.updateFees (onlyOwner): caps of 1000 and 2000
basis points on the two percentages. -/
def updateFees (env : SEnv) (s : RDState) (sender pf mf : Nat) :
    Except RDErr RDState :=
  if sender ≠ env.owner then .error .NotOwner
  else if 1000 < pf then .error .ZeroAmount
  else if 2000 < mf then .error .ZeroAmount
  else .ok { s with platformFeePercentage := pf, managementFeePercentage := mf }

/-- Apply a storage-level result, reverts leaving the state unchanged. -/
def rdApply (s : RDState) (r : Except RDErr RDState) : RDState :=
  match r with
  | .ok s' => s'
  | .error _ => s

end RD

/-! Concrete states and traces used by the counterexamples and witnesses. -/

/-- Environment in which the PropertyNFT owner has KYC-verified every
address, including the token contract's own address (setKYCStatus
accepts any address). -/
def exEnv : FT.Env := { kyc := fun _ => true, owner := 9, propertyOwner := 8 }

/-- A trace by ordinary external callers: address 2 buys 10 shares and
then makes an ERC20 transfer of 5 shares to the token contract's own
address. -/
def exOps : List FT.Op := [.purchase 2 10 10, .xfer 2 FT.contractAddr 5]

def exState : FT.S := FT.run exEnv (FT.initState 1000 1) exOps

/-- Environment where address 3 is not KYC-verified and everyone else
is. -/
def envP : FT.Env :=
  { kyc := fun a => decide (a ≠ 3), owner := 9, propertyOwner := 8 }

/-- A paused FractionalToken state in which addresses 2 and 4 are
funded and the token is active. -/
def pausedState : FT.S :=
  { balances := Function.update (Function.update (fun _ => 0) 1 900) 2 100
    investors := [2]
    isInvestorF := fun a => decide (a = 2)
    tokTotalSupply := 1000
    availableSupply := 900
    pricePerToken := 1
    isActive := true
    paused := true
    contractEth := 100
    totalInvested := 100 }

/-- An unpaused FractionalToken state whose token has been set
inactive, with a funded holder 2 and enough contract liquidity. -/
def inactiveState : FT.S :=
  { balances := Function.update (Function.update (fun _ => 0) 1 900) 2 100
    investors := [2]
    isInvestorF := fun a => decide (a = 2)
    tokTotalSupply := 1000
    availableSupply := 900
    pricePerToken := 1
    isActive := false
    paused := false
    contractEth := 100
    totalInvested := 100 }

def sellInactiveResult : FT.S :=
  match FT.sellTokens envP inactiveState 2 10 with
  | .ok s' => s'
  | .error _ => inactiveState

/-- Scenario A snapshot: holders 1 and 2 with balances 600 and 400 of a
1000-share supply. -/
def balA : RD.Addr → Nat :=
  fun a => if a = 1 then 600 else if a = 2 then 400 else 0

/-- Scenario A distribution: gross 1000 at 250 and 500 basis points. -/
def dA : RD.Dist := RD.mkDistribution 1000 250 500 [1, 2] balA 1000

def d1A : RD.Dist := RD.applyClaim dA 1

def d2A : RD.Dist := RD.applyClaim d1A 2

/-- A distribution with a single listed investor holding 1 of 1000
shares (the other 999 are unsold treasury stock), gross 100 at the
default fee percentages.  Its net amount is 93 but the investor's
allocation floors to 0. -/
def dC2 : RD.Dist :=
  RD.mkDistribution 100 250 500 [7] (fun a => if a = 7 then 1 else 0) 1000

/-- A distribution over three investors with equal balances and no fee,
every allocation positive and unclaimed. -/
def dB3 : RD.Dist :=
  RD.mkDistribution 3000 0 0 [1, 2, 3] (fun _ => 100) 300

/-- RentDistribution environment for the cross-property trace: the
contract owner is 9, property 1 belongs to 5 and property 2 to 6. -/
def envT : RD.SEnv :=
  { owner := 9
    propOwner := fun p => if p = 1 then 5 else 6
    tokInvestors := fun _ => [1, 2]
    tokBalance := fun _ => balA
    tokTotal := fun _ => 1000 }

def s0T : RD.RDState :=
  { contractBal := 0
    totalRentCollected := fun _ => 0
    registered := fun _ => false
    dists := []
    platformFeePercentage := 250
    managementFeePercentage := 500
    paused := false }

def s1T : RD.RDState := RD.rdApply s0T (RD.registerFractionalToken envT s0T 9 1)

def s2T : RD.RDState := RD.rdApply s1T (RD.registerFractionalToken envT s1T 9 2)

/-- State after the owner of property 1 deposited 100 of rent for
property 1; nothing was ever deposited for property 2. -/
def sT : RD.RDState := RD.rdApply s2T (RD.depositRent envT s2T 5 1 100)

/-- A paused RentDistribution state holding one live distribution. -/
def sRP : RD.RDState :=
  { contractBal := 925
    totalRentCollected := Function.update (fun _ => 0) 1 1000
    registered := Function.update (fun _ => false) 1 true
    dists := [dA]
    platformFeePercentage := 250
    managementFeePercentage := 500
    paused := true }


/-! Helper lemmas about floor-division sums over lists, used by the
allocation bounds. -/

theorem divAddLe (a b D : Nat) (hD : 0 < D) : a / D + b / D ≤ (a + b) / D := by
  rw [Nat.le_div_iff_mul_le hD]
  have h1 := Nat.div_mul_le_self a D
  have h2 := Nat.div_mul_le_self b D
  calc (a / D + b / D) * D = a / D * D + b / D * D := by ring
    _ ≤ a + b := Nat.add_le_add h1 h2

theorem listDivSumLe (D : Nat) (hD : 0 < D) (l : List Nat) :
    (l.map fun x => x / D).sum ≤ l.sum / D := by
  induction l with
  | nil => simp
  | cons a l ih =>
      simp only [List.map_cons, List.sum_cons]
      have h1 := divAddLe a l.sum D hD
      omega

theorem listMulSum (n : Nat) (l : List Nat) :
    (l.map fun x => n * x).sum = n * l.sum := by
  induction l with
  | nil => simp
  | cons a l ih => simp [ih, Nat.mul_add]

theorem listFloorBound (net D : Nat) (hD : 0 < D) (l : List Nat) :
    net * l.sum ≤
      (l.map fun b => net * b / D).sum * D
        + (l.countP fun b => decide (0 < b)) * (D - 1) := by
  induction l with
  | nil => simp
  | cons b l ih =>
      by_cases hb : 0 < b
      · have hm := Nat.div_add_mod (net * b) D
        have hlt : net * b % D < D := Nat.mod_lt _ hD
        have h1 : net * b ≤ D * (net * b / D) + (D - 1) := by omega
        simp only [List.map_cons, List.sum_cons, List.countP_cons]
        rw [if_pos (by simpa using hb)]
        calc net * (b + l.sum) = net * b + net * l.sum := by ring
          _ ≤ (D * (net * b / D) + (D - 1)) +
              ((l.map fun b => net * b / D).sum * D
                + (l.countP fun b => decide (0 < b)) * (D - 1)) :=
            Nat.add_le_add h1 ih
          _ = (net * b / D + (l.map fun b => net * b / D).sum) * D
              + ((l.countP fun b => decide (0 < b)) + 1) * (D - 1) := by ring
      · have hb0 : b = 0 := by omega
        subst hb0
        simp only [List.map_cons, List.sum_cons, List.countP_cons]
        rw [if_neg (by simp)]
        simpa using ih

theorem listCntPos (l : List Nat) (h : 0 < l.sum) :
    0 < l.countP fun b => decide (0 < b) := by
  induction l with
  | nil => simp at h
  | cons b l ih =>
      by_cases hb : 0 < b
      · simp [List.countP_cons, hb]
      · have hb0 : b = 0 := by omega
        subst hb0
        simp only [List.sum_cons, Nat.zero_add] at h
        simp [List.countP_cons, ih h]

theorem mkAllocEq (g p m D : Nat) (inv : List RD.Addr) (bal : RD.Addr → Nat) :
    ∀ i ∈ inv,
      (RD.mkDistribution g p m inv bal D).investorDistributions i
        = (g - g * p / 10000 - g * m / 10000) * bal i / D := by
  intro i hi
  by_cases hb : 0 < bal i
  · simp [RD.mkDistribution, hi, hb]
  · have hb0 : bal i = 0 := by omega
    simp [RD.mkDistribution, hb0]

theorem mkAllocSum (g p m D : Nat) (inv : List RD.Addr) (bal : RD.Addr → Nat) :
    RD.sumAllocations (RD.mkDistribution g p m inv bal D)
      = ((inv.map bal).map fun b =>
          (g - g * p / 10000 - g * m / 10000) * b / D).sum := by
  simp only [RD.sumAllocations]
  have hInv : (RD.mkDistribution g p m inv bal D).investors = inv := rfl
  rw [hInv, List.map_map]
  congr 1
  apply List.map_congr_left
  intro i hi
  exact mkAllocEq g p m D inv bal i hi

/-! Inversion and field-preservation lemmas for the distribution
operations. -/

theorem claimOk {d : RD.Dist} {c : RD.Addr} {d' : RD.Dist} {amt : Nat}
    (h : RD.claimDistribution d c = .ok (d', amt)) :
    d.isCompleted = false ∧ d.claimed c = false ∧
    amt = d.investorDistributions c ∧ 0 < amt ∧
    d' = RD.checkDistributionCompletion
      { d with claimed := Function.update d.claimed c true
               totalDistributed := d.totalDistributed + amt } := by
  unfold RD.claimDistribution at h
  split_ifs at h with h1 h2 h3
  simp only [Except.ok.injEq, Prod.mk.injEq] at h
  obtain ⟨hd, ha⟩ := h
  subst ha
  exact ⟨by simpa using h1, by simpa using h2, rfl, by omega, hd.symm⟩

theorem batchOk {d d' : RD.Dist} {ps : List (RD.Addr × Nat)}
    (h : RD.batchDistribute d = .ok (d', ps)) :
    d.isCompleted = false ∧
    d' = RD.checkDistributionCompletion (RD.batchLoop d d.investors).1 ∧
    ps = (RD.batchLoop d d.investors).2 := by
  unfold RD.batchDistribute at h
  split_ifs at h with h1
  simp only [Except.ok.injEq, Prod.mk.injEq] at h
  exact ⟨by simpa using h1, h.1.symm, h.2.symm⟩

theorem checkFields (d : RD.Dist) :
    (RD.checkDistributionCompletion d).investorDistributions
        = d.investorDistributions ∧
    (RD.checkDistributionCompletion d).claimed = d.claimed ∧
    (RD.checkDistributionCompletion d).investors = d.investors ∧
    (RD.checkDistributionCompletion d).totalDistributed = d.totalDistributed ∧
    (RD.checkDistributionCompletion d).platformFee = d.platformFee ∧
    (RD.checkDistributionCompletion d).propertyOwnerFee = d.propertyOwnerFee ∧
    (RD.checkDistributionCompletion d).totalRentCollected
        = d.totalRentCollected := by
  unfold RD.checkDistributionCompletion
  split <;> simp

theorem batchLoopFields (l : List RD.Addr) : ∀ d : RD.Dist,
    (RD.batchLoop d l).1.investorDistributions = d.investorDistributions ∧
    (RD.batchLoop d l).1.investors = d.investors ∧
    (RD.batchLoop d l).1.isCompleted = d.isCompleted ∧
    (RD.batchLoop d l).1.platformFee = d.platformFee ∧
    (RD.batchLoop d l).1.propertyOwnerFee = d.propertyOwnerFee ∧
    (RD.batchLoop d l).1.totalRentCollected = d.totalRentCollected := by
  induction l with
  | nil => intro d; simp [RD.batchLoop]
  | cons i rest ih =>
      intro d
      by_cases hc : (!d.claimed i) ∧ 0 < d.investorDistributions i
      · simp only [RD.batchLoop, if_pos hc]
        simpa using ih _
      · simp only [RD.batchLoop, if_neg hc]
        exact ih d

/-- Claim C2 counterexample: for the distribution dC2 (one listed
investor holding 1 of 1000 shares, gross 100 at the default fee
percentages) the net amount is 93, the investor's allocation floors to
0, so the dust 93 is not less than the number of holders with a
positive allocation (which is 0).  The claim's bound fails because the
share denominator counts the 999 unsold treasury shares. -/
theorem rd_rounding_loss_cex :
    ¬ (RD.sumAllocations dC2 ≤ RD.netAmount dC2 ∧
       RD.netAmount dC2 - RD.sumAllocations dC2
         < RD.countPositiveAllocations dC2) := by decide

/-- Claim C2 (amended): with the share denominator D positive and the
listed investors' balances summing to at most D (always true of a real
token snapshot), the allocations of a freshly created distribution sum
to at most the net amount; and under the additional hypothesis that the
listed investors hold the entire supply (their balances sum to exactly
D), the dust is strictly less than the number of investors with a
positive balance. -/
theorem rd_rounding_loss_bound (g p m D : Nat) (inv : List RD.Addr)
    (bal : RD.Addr → Nat) (hD : 0 < D) (hle : (inv.map bal).sum ≤ D) :
    RD.sumAllocations (RD.mkDistribution g p m inv bal D)
      ≤ RD.netAmount (RD.mkDistribution g p m inv bal D) ∧
    ((inv.map bal).sum = D →
      RD.netAmount (RD.mkDistribution g p m inv bal D)
          - RD.sumAllocations (RD.mkDistribution g p m inv bal D)
        < (inv.map bal).countP fun b => decide (0 < b)) := by
  have hnet : RD.netAmount (RD.mkDistribution g p m inv bal D)
      = g - g * p / 10000 - g * m / 10000 := rfl
  have hsum := mkAllocSum g p m D inv bal
  set na := g - g * p / 10000 - g * m / 10000 with hna
  set l := inv.map bal with hl
  have ha : (l.map fun b => na * b / D).sum ≤ na := by
    have heq : ((l.map fun b => na * b).map fun x => x / D)
        = l.map fun b => na * b / D := by
      rw [List.map_map]; rfl
    have h2 := listDivSumLe D hD (l.map fun b => na * b)
    rw [heq, listMulSum na l] at h2
    have h4 : na * l.sum / D ≤ na * D / D :=
      Nat.div_le_div_right (Nat.mul_le_mul_left na hle)
    have h5 : na * D / D = na := Nat.mul_div_cancel na hD
    omega
  constructor
  · rw [hsum, hnet]
    exact ha
  · intro heq
    have hkey := listFloorBound na D hD l
    rw [heq] at hkey
    have hcnt : 0 < l.countP fun b => decide (0 < b) := listCntPos l (by omega)
    have h4 : (l.countP fun b => decide (0 < b)) * (D - 1)
        < (l.countP fun b => decide (0 < b)) * D :=
      mul_lt_mul_of_pos_left (by omega) hcnt
    have h5 : na * D
        < ((l.map fun b => na * b / D).sum
            + l.countP fun b => decide (0 < b)) * D := by
      rw [Nat.add_mul]
      omega
    have h6 : na < (l.map fun b => na * b / D).sum
        + l.countP fun b => decide (0 < b) :=
      lt_of_mul_lt_mul_right h5 (Nat.zero_le D)
    rw [hsum, hnet]
    omega

/-- Claim C2 witness: the amended bound evaluated on the Scenario A
distribution, whose two investors hold the whole supply. -/
theorem rd_rounding_loss_bound_witness :
    RD.sumAllocations dA ≤ RD.netAmount dA ∧
    RD.netAmount dA - RD.sumAllocations dA
      < (([1, 2].map balA).countP fun b => decide (0 < b)) := by
  have h := rd_rounding_loss_bound 1000 250 500 1000 [1, 2] balA
    (by decide) (by decide)
  exact ⟨h.1, h.2 (by decide)⟩

/-- Claim C3: fee exactness.  A created distribution stores
platformFee = floor(gross * pfPct / 10000) and managementFee =
floor(gross * mgmtPct / 10000); with the percentages within the caps
enforced by updateFees the two fees plus the net amount give back the
gross amount exactly; and neither claiming nor batch distribution ever
changes the gross, the fees, or hence the net amount of a
distribution. -/
theorem rd_fee_exactness :
    (∀ (g p m D : Nat) (inv : List RD.Addr) (bal : RD.Addr → Nat),
        p ≤ 1000 → m ≤ 2000 →
        (RD.mkDistribution g p m inv bal D).platformFee = g * p / 10000 ∧
        (RD.mkDistribution g p m inv bal D).propertyOwnerFee
            = g * m / 10000 ∧
        (RD.mkDistribution g p m inv bal D).platformFee
            + (RD.mkDistribution g p m inv bal D).propertyOwnerFee
            + RD.netAmount (RD.mkDistribution g p m inv bal D) = g) ∧
    (∀ (d d' : RD.Dist) (c : RD.Addr) (amt : Nat),
        RD.claimDistribution d c = .ok (d', amt) →
        d'.platformFee = d.platformFee ∧
        d'.propertyOwnerFee = d.propertyOwnerFee ∧
        d'.totalRentCollected = d.totalRentCollected ∧
        RD.netAmount d' = RD.netAmount d) ∧
    (∀ (d d' : RD.Dist) (ps : List (RD.Addr × Nat)),
        RD.batchDistribute d = .ok (d', ps) →
        d'.platformFee = d.platformFee ∧
        d'.propertyOwnerFee = d.propertyOwnerFee ∧
        d'.totalRentCollected = d.totalRentCollected ∧
        RD.netAmount d' = RD.netAmount d) := by
  refine ⟨?_, ?_, ?_⟩
  · intro g p m D inv bal hp hm
    refine ⟨rfl, rfl, ?_⟩
    have h1 : g * p / 10000 + g * m / 10000 ≤ (g * p + g * m) / 10000 :=
      divAddLe _ _ _ (by norm_num)
    have h2 : (g * p + g * m) / 10000 = g * (p + m) / 10000 := by
      rw [Nat.mul_add]
    have h3 : g * (p + m) / 10000 ≤ g * 10000 / 10000 :=
      Nat.div_le_div_right (Nat.mul_le_mul_left g (by omega))
    have h4 : g * 10000 / 10000 = g := Nat.mul_div_cancel g (by norm_num)
    have hnet : RD.netAmount (RD.mkDistribution g p m inv bal D)
        = g - g * p / 10000 - g * m / 10000 := rfl
    have hpf : (RD.mkDistribution g p m inv bal D).platformFee
        = g * p / 10000 := rfl
    have hmf : (RD.mkDistribution g p m inv bal D).propertyOwnerFee
        = g * m / 10000 := rfl
    rw [hnet, hpf, hmf]
    omega
  · intro d d' c amt hcl
    obtain ⟨-, -, -, -, hd⟩ := claimOk hcl
    subst hd
    obtain ⟨-, -, -, -, hp, hq, hr⟩ := checkFields _
    refine ⟨by rw [hp], by rw [hq], by rw [hr], ?_⟩
    unfold RD.netAmount
    rw [hp, hq, hr]
  · intro d d' ps hb
    obtain ⟨-, hd, -⟩ := batchOk hb
    subst hd
    obtain ⟨-, -, -, h4, h5, h6⟩ := batchLoopFields d.investors d
    obtain ⟨-, -, -, -, hp, hq, hr⟩ :=
      checkFields (RD.batchLoop d d.investors).1
    refine ⟨by rw [hp, h4], by rw [hq, h5], by rw [hr, h6], ?_⟩
    unfold RD.netAmount
    rw [hp, hq, hr, h4, h5, h6]

/-- Claim C3 witness: fee exactness evaluated on the Scenario A
distribution: 25 + 50 + 925 = 1000. -/
theorem rd_fee_exactness_witness :
    dA.platformFee + dA.propertyOwnerFee + RD.netAmount dA = 1000 :=
  (rd_fee_exactness.1 1000 250 500 1000 [1, 2] balA
    (by decide) (by decide)).2.2

/-- Claim C4: Scenario A end to end.  For totalShares 1000, holders 1
and 2 with balances 600 and 400, gross 1000 at 250 and 500 basis
points: fees 25 and 50, net 925, denominator 1000, allocations 555 and
370, dust 0; after both holders claim, totalDistributed is 925 and the
distribution is completed. -/
theorem scenario_a_end_to_end :
    dA.platformFee = 25 ∧ dA.propertyOwnerFee = 50 ∧
    RD.netAmount dA = 925 ∧ dA.totalTokensAtDistribution = 1000 ∧
    dA.investorDistributions 1 = 555 ∧ dA.investorDistributions 2 = 370 ∧
    RD.netAmount dA - RD.sumAllocations dA = 0 ∧
    (RD.claimDistribution dA 1).isOk = true ∧
    (RD.claimDistribution d1A 2).isOk = true ∧
    d2A.totalDistributed = 925 ∧ d2A.isCompleted = true := by decide

/-! Completion-check lemmas. -/

theorem checkId (d : RD.Dist) (h : d.isCompleted = true) :
    RD.checkDistributionCompletion d = d := by
  unfold RD.checkDistributionCompletion
  rw [h]
  simp

theorem checkCompletedEq (d : RD.Dist) (h : d.isCompleted = false) :
    (RD.checkDistributionCompletion d).isCompleted = RD.allClaimedB d := by
  unfold RD.checkDistributionCompletion
  rw [h]
  cases hb : RD.allClaimedB d <;> simp [hb, h]

theorem allClaimedIff (d : RD.Dist) (hwf : RD.WfAlloc d) :
    RD.allClaimedB d = true ↔
      ∀ a : RD.Addr, 0 < d.investorDistributions a → d.claimed a = true := by
  unfold RD.allClaimedB
  rw [List.all_eq_true]
  constructor
  · intro h a ha
    have hm : a ∈ d.investors := hwf a (by omega)
    have h2 := h a hm
    simp only [Bool.or_eq_true, decide_eq_true_eq] at h2
    rcases h2 with h2 | h2
    · omega
    · exact h2
  · intro h i _
    simp only [Bool.or_eq_true, decide_eq_true_eq]
    by_cases hp : 0 < d.investorDistributions i
    · exact Or.inr (h i hp)
    · exact Or.inl (by omega)

theorem mkWf (g p m D : Nat) (inv : List RD.Addr) (bal : RD.Addr → Nat) :
    RD.WfAlloc (RD.mkDistribution g p m inv bal D) := by
  intro a ha
  by_cases hm : a ∈ inv
  · exact hm
  · exfalso
    apply ha
    simp [RD.mkDistribution, hm]

/-- Claim C5: completion monotonicity and characterization.  Re-running
the completion check on a completed distribution changes nothing; a
claim or batch call on a completed distribution reverts, so the flag is
never reset once true; distributions built by createDistribution only
give allocations to listed investors; and after any successful claim or
batch call the completed flag holds exactly when every holder with a
positive allocation has claimed (reverted calls produce no post-state
in the EVM). -/
theorem rd_completion_monotonic :
    (∀ d : RD.Dist, d.isCompleted = true →
        RD.checkDistributionCompletion d = d) ∧
    (∀ (d : RD.Dist) (c : RD.Addr), d.isCompleted = true →
        RD.claimDistribution d c = .error .DistributionCompleted) ∧
    (∀ d : RD.Dist, d.isCompleted = true →
        RD.batchDistribute d = .error .DistributionCompleted) ∧
    (∀ (g p m D : Nat) (inv : List RD.Addr) (bal : RD.Addr → Nat),
        RD.WfAlloc (RD.mkDistribution g p m inv bal D)) ∧
    (∀ (d d' : RD.Dist) (c : RD.Addr) (amt : Nat), RD.WfAlloc d →
        RD.claimDistribution d c = .ok (d', amt) →
        (d'.isCompleted = true ↔
          ∀ a : RD.Addr, 0 < d'.investorDistributions a →
            d'.claimed a = true)) ∧
    (∀ (d d' : RD.Dist) (ps : List (RD.Addr × Nat)), RD.WfAlloc d →
        RD.batchDistribute d = .ok (d', ps) →
        (d'.isCompleted = true ↔
          ∀ a : RD.Addr, 0 < d'.investorDistributions a →
            d'.claimed a = true)) := by
  refine ⟨checkId, ?_, ?_, mkWf, ?_, ?_⟩
  · intro d c h
    simp [RD.claimDistribution, h]
  · intro d h
    simp [RD.batchDistribute, h]
  · intro d d' c amt hwf hcl
    obtain ⟨hic, -, -, -, hd⟩ := claimOk hcl
    subst hd
    set d1 : RD.Dist :=
      { d with claimed := Function.update d.claimed c true
               totalDistributed := d.totalDistributed + amt } with hd1
    have hic1 : d1.isCompleted = false := hic
    have hcomp := checkCompletedEq d1 hic1
    have hwf1 : RD.WfAlloc d1 := fun a ha => hwf a ha
    have hiff := allClaimedIff d1 hwf1
    obtain ⟨hA, hC, -, -, -, -, -⟩ := checkFields d1
    constructor
    · intro h
      rw [hcomp] at h
      have h2 := hiff.mp h
      intro a hpa
      rw [hA] at hpa
      rw [hC]
      exact h2 a hpa
    · intro h
      rw [hcomp]
      apply hiff.mpr
      intro a hpa
      have h3 := h a (by rw [hA]; exact hpa)
      rw [hC] at h3
      exact h3
  · intro d d' ps hwf hb
    obtain ⟨hic, hd, -⟩ := batchOk hb
    subst hd
    obtain ⟨hA2, hI2, hC2, -, -, -⟩ := batchLoopFields d.investors d
    have hicL : (RD.batchLoop d d.investors).1.isCompleted = false := by
      rw [hC2]; exact hic
    have hcomp := checkCompletedEq (RD.batchLoop d d.investors).1 hicL
    have hwfL : RD.WfAlloc (RD.batchLoop d d.investors).1 := by
      intro a ha
      rw [hA2] at ha
      rw [hI2]
      exact hwf a ha
    have hiff := allClaimedIff (RD.batchLoop d d.investors).1 hwfL
    obtain ⟨hA, hC, -, -, -, -, -⟩ :=
      checkFields (RD.batchLoop d d.investors).1
    constructor
    · intro h
      rw [hcomp] at h
      have h2 := hiff.mp h
      intro a hpa
      rw [hA] at hpa
      rw [hC]
      exact h2 a hpa
    · intro h
      rw [hcomp]
      apply hiff.mpr
      intro a hpa
      have h3 := h a (by rw [hA]; exact hpa)
      rw [hC] at h3
      exact h3

/-- Claim C5 witness: on the completed Scenario A distribution the
completion check is the identity and a further claim reverts. -/
theorem rd_completion_monotonic_witness :
    RD.checkDistributionCompletion d2A = d2A ∧
    RD.claimDistribution d2A 1 = .error .DistributionCompleted :=
  ⟨rd_completion_monotonic.1 d2A (by decide),
   rd_completion_monotonic.2.1 d2A 1 (by decide)⟩

/-! Payment bookkeeping lemmas for the batch loop. -/

theorem batchLoopClaimedMono (l : List RD.Addr) :
    ∀ (d : RD.Dist) (c : RD.Addr),
      d.claimed c = true → (RD.batchLoop d l).1.claimed c = true := by
  induction l with
  | nil => intro d c h; simpa [RD.batchLoop] using h
  | cons i rest ih =>
      intro d c h
      by_cases hc : (!d.claimed i) ∧ 0 < d.investorDistributions i
      · simp only [RD.batchLoop, if_pos hc]
        apply ih
        show Function.update d.claimed i true c = true
        by_cases hci : c = i
        · subst hci
          rw [Function.update_same]
        · rw [Function.update_noteq hci]
          exact h
      · simp only [RD.batchLoop, if_neg hc]
        exact ih d c h

theorem batchLoopNotPaid (l : List RD.Addr) :
    ∀ (d : RD.Dist) (c : RD.Addr),
      d.claimed c = true → ∀ a : Nat, (c, a) ∉ (RD.batchLoop d l).2 := by
  induction l with
  | nil => intro d c h a; simp [RD.batchLoop]
  | cons i rest ih =>
      intro d c h a
      by_cases hc : (!d.claimed i) ∧ 0 < d.investorDistributions i
      · simp only [RD.batchLoop, if_pos hc]
        intro hmem
        rcases List.mem_cons.mp hmem with heq | hmem2
        · simp only [Prod.mk.injEq] at heq
          obtain ⟨rfl, -⟩ := heq
          obtain ⟨hni, -⟩ := hc
          rw [h] at hni
          simp at hni
        · have hcl1 : Function.update d.claimed i true c = true := by
            by_cases hci : c = i
            · subst hci
              rw [Function.update_same]
            · rw [Function.update_noteq hci]; exact h
          exact ih _ c hcl1 a hmem2
      · simp only [RD.batchLoop, if_neg hc]
        exact ih d c h a

theorem batchLoopPaidClaimed (l : List RD.Addr) :
    ∀ (d : RD.Dist) (c : RD.Addr) (a : Nat),
      (c, a) ∈ (RD.batchLoop d l).2 →
      (RD.batchLoop d l).1.claimed c = true := by
  induction l with
  | nil => intro d c a h; simp [RD.batchLoop] at h
  | cons i rest ih =>
      intro d c a h
      by_cases hc : (!d.claimed i) ∧ 0 < d.investorDistributions i
      · simp only [RD.batchLoop, if_pos hc] at h ⊢
        rcases List.mem_cons.mp h with heq | hmem
        · simp only [Prod.mk.injEq] at heq
          obtain ⟨rfl, -⟩ := heq
          apply batchLoopClaimedMono
          show Function.update d.claimed c true c = true
          rw [Function.update_same]
        · exact ih _ c a hmem
      · simp only [RD.batchLoop, if_neg hc] at h ⊢
        exact ih d c a h

theorem batchLoopNodup (l : List RD.Addr) :
    ∀ d : RD.Dist, ((RD.batchLoop d l).2.map Prod.fst).Nodup := by
  induction l with
  | nil => intro d; simp [RD.batchLoop]
  | cons i rest ih =>
      intro d
      by_cases hc : (!d.claimed i) ∧ 0 < d.investorDistributions i
      · simp only [RD.batchLoop, if_pos hc]
        rw [List.map_cons, List.nodup_cons]
        constructor
        · intro hmem
          obtain ⟨q, hm2, hfst⟩ := List.mem_map.mp hmem
          apply batchLoopNotPaid rest
            { d with claimed := Function.update d.claimed i true
                     totalDistributed :=
                       d.totalDistributed + d.investorDistributions i }
            i (by show Function.update d.claimed i true i = true; rw [Function.update_same]) q.2
          rw [show (i, q.2) = q from ?_]
          · exact hm2
          · rcases q with ⟨q1, q2⟩
            simp only [Prod.fst] at hfst
            rw [hfst]
        · exact ih _
      · simp only [RD.batchLoop, if_neg hc]
        exact ih d

theorem batchLoopPaysAll (l : List RD.Addr) :
    ∀ (d : RD.Dist) (c : RD.Addr), c ∈ l → 0 < d.investorDistributions c →
      (RD.batchLoop d l).1.claimed c = true := by
  induction l with
  | nil => intro d c h; simp at h
  | cons i rest ih =>
      intro d c hm hp
      by_cases hc : (!d.claimed i) ∧ 0 < d.investorDistributions i
      · simp only [RD.batchLoop, if_pos hc]
        rcases List.mem_cons.mp hm with rfl | hm2
        · apply batchLoopClaimedMono
          show Function.update d.claimed c true c = true
          rw [Function.update_same]
        · exact ih _ c hm2 hp
      · simp only [RD.batchLoop, if_neg hc]
        rcases List.mem_cons.mp hm with rfl | hm2
        · have hcl : d.claimed c = true := by
            by_contra hq
            rw [Bool.not_eq_true] at hq
            exact hc ⟨by rw [hq]; rfl, hp⟩
          exact batchLoopClaimedMono rest d c hcl
        · exact ih d c hm2 hp

theorem batchLoopTotal (l : List RD.Addr) : ∀ d : RD.Dist,
    (RD.batchLoop d l).1.totalDistributed
      = d.totalDistributed + ((RD.batchLoop d l).2.map Prod.snd).sum := by
  induction l with
  | nil => intro d; simp [RD.batchLoop]
  | cons i rest ih =>
      intro d
      by_cases hc : (!d.claimed i) ∧ 0 < d.investorDistributions i
      · simp only [RD.batchLoop, if_pos hc]
        rw [List.map_cons, List.sum_cons]
        rw [ih { d with claimed := Function.update d.claimed i true
                        totalDistributed :=
                          d.totalDistributed + d.investorDistributions i }]
        have h3 : ({ d with claimed := Function.update d.claimed i true
                            totalDistributed :=
                              d.totalDistributed + d.investorDistributions i }
            : RD.Dist).totalDistributed
            = d.totalDistributed + d.investorDistributions i := rfl
        rw [h3]
        omega
      · simp only [RD.batchLoop, if_neg hc]
        exact ih d

/-- Claim C6 counterexample: on the completed Scenario A distribution,
holder 1 is marked claimed, but a second claim by holder 1 reverts with
DistributionCompleted, not AlreadyClaimed, because the completed check
runs first. -/
theorem rd_no_double_payout_cex :
    d2A.claimed 1 = true ∧
    RD.claimDistribution d2A 1 = .error .DistributionCompleted ∧
    RD.claimDistribution d2A 1 ≠ .error .AlreadyClaimed := by
  refine ⟨by decide, by rfl, ?_⟩
  intro h
  rw [show RD.claimDistribution d2A 1
      = .error .DistributionCompleted from rfl] at h
  simp at h

/-- Claim C6 (amended): no double payout.  Once a holder is marked
claimed, a second claim by the same holder reverts (with AlreadyClaimed
while the distribution is not yet completed, and with
DistributionCompleted afterwards) and never succeeds, so it changes no
state; a batch distribution pays no already-claimed holder, pays no
holder twice within one pass, and two consecutive passes never pay the
same holder twice. -/
theorem rd_no_double_payout :
    (∀ (d : RD.Dist) (c : RD.Addr), d.claimed c = true →
        d.isCompleted = false →
        RD.claimDistribution d c = .error .AlreadyClaimed) ∧
    (∀ (d : RD.Dist) (c : RD.Addr), d.claimed c = true →
        ∀ (d' : RD.Dist) (amt : Nat),
          RD.claimDistribution d c ≠ .ok (d', amt)) ∧
    (∀ (d d' : RD.Dist) (ps : List (RD.Addr × Nat)),
        RD.batchDistribute d = .ok (d', ps) →
        ∀ (c : RD.Addr) (amt : Nat), d.claimed c = true → (c, amt) ∉ ps) ∧
    (∀ (d d' : RD.Dist) (ps : List (RD.Addr × Nat)),
        RD.batchDistribute d = .ok (d', ps) → (ps.map Prod.fst).Nodup) ∧
    (∀ (d d1 d2 : RD.Dist) (ps1 ps2 : List (RD.Addr × Nat)),
        RD.batchDistribute d = .ok (d1, ps1) →
        RD.batchDistribute d1 = .ok (d2, ps2) →
        ∀ (c : RD.Addr) (a1 a2 : Nat), (c, a1) ∈ ps1 → (c, a2) ∉ ps2) := by
  refine ⟨?_, ?_, ?_, ?_, ?_⟩
  · intro d c hcl hic
    simp [RD.claimDistribution, hic, hcl]
  · intro d c hcl d' amt h
    obtain ⟨-, hnc, -, -, -⟩ := claimOk h
    rw [hcl] at hnc
    simp at hnc
  · intro d d' ps hb c amt hcl
    obtain ⟨-, -, hps⟩ := batchOk hb
    subst hps
    exact batchLoopNotPaid d.investors d c hcl amt
  · intro d d' ps hb
    obtain ⟨-, -, hps⟩ := batchOk hb
    subst hps
    exact batchLoopNodup d.investors d
  · intro d d1 d2 ps1 ps2 hb1 hb2 c a1 a2 hm1
    obtain ⟨-, hd1, hps1⟩ := batchOk hb1
    obtain ⟨-, -, hps2⟩ := batchOk hb2
    subst hps1
    subst hps2
    have hcl : (RD.batchLoop d d.investors).1.claimed c = true :=
      batchLoopPaidClaimed d.investors d c a1 hm1
    have hcl1 : d1.claimed c = true := by
      subst hd1
      obtain ⟨-, hC, -, -, -, -, -⟩ :=
        checkFields (RD.batchLoop d d.investors).1
      rw [hC]
      exact hcl
    exact batchLoopNotPaid d1.investors d1 c hcl1 a2

/-- Claim C6 witness: on the Scenario A distribution after holder 1 has
claimed (and the distribution is not yet completed), a second claim by
holder 1 reverts with AlreadyClaimed. -/
theorem rd_no_double_payout_witness :
    RD.claimDistribution d1A 1 = .error .AlreadyClaimed :=
  rd_no_double_payout.1 d1A 1 (by decide) (by decide)

/-- Claim C8 counterexample: batchDistribute takes no offset or limit;
a single call on the three-investor distribution dB3 walks the entire
investor list, paying all three allocations and completing the
distribution. -/
theorem rd_batch_bounded_cex :
    RD.batchPayments dB3 = [(1, 1000), (2, 1000), (3, 1000)] ∧
    (RD.batchResult dB3).claimed 1 = true ∧
    (RD.batchResult dB3).claimed 2 = true ∧
    (RD.batchResult dB3).claimed 3 = true ∧
    (RD.batchResult dB3).isCompleted = true := by decide

/-- Claim C8 (amended): batchDistribute takes only the distribution id
and iterates the entire investor list in one call: after a successful
call every listed investor with a positive allocation is claimed, the
totalDistributed accumulator grows by exactly the sum of the payments
made, and the result is the completion check applied to the fully
processed distribution. -/
theorem rd_batch_processes_all :
    ∀ (d d' : RD.Dist) (ps : List (RD.Addr × Nat)),
      RD.batchDistribute d = .ok (d', ps) →
      (∀ c ∈ d.investors, 0 < d.investorDistributions c →
        d'.claimed c = true) ∧
      d'.totalDistributed = d.totalDistributed + (ps.map Prod.snd).sum ∧
      d' = RD.checkDistributionCompletion (RD.batchLoop d d.investors).1 := by
  intro d d' ps hb
  obtain ⟨-, hd, hps⟩ := batchOk hb
  subst hd
  subst hps
  obtain ⟨-, hC, -, hT, -, -, -⟩ :=
    checkFields (RD.batchLoop d d.investors).1
  refine ⟨?_, ?_, rfl⟩
  · intro c hm hp
    rw [hC]
    exact batchLoopPaysAll d.investors d c hm hp
  · rw [hT]
    exact batchLoopTotal d.investors d

/-- Claim C8 witness: the amended statement evaluated on dB3, where the
single call claims investor 2 and accounts for all payments. -/
theorem rd_batch_processes_all_witness :
    (RD.batchResult dB3).claimed 2 = true ∧
    (RD.batchResult dB3).totalDistributed
      = dB3.totalDistributed + ((RD.batchPayments dB3).map Prod.snd).sum := by
  have h := rd_batch_processes_all dB3 (RD.batchResult dB3)
    (RD.batchPayments dB3) rfl
  exact ⟨h.1 2 (by decide) (by decide), h.2.1⟩

/-- Claim C7 counterexample: in the paused state pausedState, the ERC20
transfer entry point still succeeds (it has no pause check), and the
purchase entry point rejects an unverified caller with NotKYC rather
than a pause error, so the pause check is not evaluated before every
other precondition. -/
theorem pause_circuit_breaker_cex :
    pausedState.paused = true ∧
    (FT.transfer envP pausedState 2 4 10).isOk = true ∧
    FT.purchaseTokens envP pausedState 3 10 10 = .error .NotKYC := by
  refine ⟨rfl, by decide, by rfl⟩

/-- Claim C7 (amended): once paused, purchaseTokens, sellTokens,
depositRent, createDistribution, claimDistribution and batchDistribute
all revert (with a pause error only after the modifiers that run
earlier in source order, such as KYC, active-token and ownership
checks, have passed), while the ERC20 transfer entry points are not
affected by pause; read-only queries are pure functions of the state
and remain available. -/
theorem pause_circuit_breaker :
    (∀ (env : FT.Env) (s : FT.S) (sn : FT.Addr) (a p : Nat),
        s.paused = true → ∃ e, FT.purchaseTokens env s sn a p = .error e) ∧
    (∀ (env : FT.Env) (s : FT.S) (sn : FT.Addr) (a : Nat),
        s.paused = true → ∃ e, FT.sellTokens env s sn a = .error e) ∧
    (∀ (env : RD.SEnv) (s : RD.RDState) (sn pid v : Nat),
        s.paused = true → ∃ e, RD.depositRent env s sn pid v = .error e) ∧
    (∀ (env : RD.SEnv) (s : RD.RDState) (sn pid amt : Nat),
        s.paused = true →
        ∃ e, RD.createDistributionS env s sn pid amt = .error e) ∧
    (∀ (env : RD.SEnv) (s : RD.RDState) (sn did : Nat),
        s.paused = true →
        RD.claimDistributionS env s sn did = .error .ContractPaused) ∧
    (∀ (env : RD.SEnv) (s : RD.RDState) (sn did : Nat),
        s.paused = true →
        ∃ e, RD.batchDistributeS env s sn did = .error e) := by
  refine ⟨?_, ?_, ?_, ?_, ?_, ?_⟩
  · intro env s sn a p hp
    unfold FT.purchaseTokens
    split_ifs with h1 h2 h3 <;> first | exact ⟨_, rfl⟩ | exact absurd hp h3
  · intro env s sn a hp
    unfold FT.sellTokens
    split_ifs with h1 h2 <;> first | exact ⟨_, rfl⟩ | exact absurd hp h2
  · intro env s sn pid v hp
    unfold RD.depositRent
    split_ifs with h1 h2 <;> first | exact ⟨_, rfl⟩ | exact absurd hp h2
  · intro env s sn pid amt hp
    unfold RD.createDistributionS
    split_ifs with h1 h2 <;> first | exact ⟨_, rfl⟩ | exact absurd hp h2
  · intro env s sn did hp
    simp [RD.claimDistributionS, hp]
  · intro env s sn did hp
    unfold RD.batchDistributeS
    split_ifs with h1 h2 <;> first | exact ⟨_, rfl⟩ | exact absurd hp h2

/-- Claim C7 witness: the paused-state rejections evaluated on the
concrete paused states pausedState and sRP. -/
theorem pause_circuit_breaker_witness :
    (∃ e, FT.purchaseTokens envP pausedState 2 10 10 = .error e) ∧
    RD.claimDistributionS envT sRP 1 0 = .error .ContractPaused :=
  ⟨pause_circuit_breaker.1 envP pausedState 2 10 10 rfl,
   pause_circuit_breaker.2.2.2.2.1 envT sRP 1 0 rfl⟩

/-- Claim C9 counterexample: sellTokens has no onlyActiveToken
modifier.  In the state inactiveState the token is inactive, yet a sale
by the funded holder 2 succeeds and moves availableSupply from 900 to
910. -/
theorem sell_preconditions_cex :
    inactiveState.isActive = false ∧
    (FT.sellTokens envP inactiveState 2 10).isOk = true ∧
    sellInactiveResult.availableSupply
      = inactiveState.availableSupply + 10 := by decide

/-- Claim C9 (amended): sellTokens rejects with InsufficientBalance
when the holder's balance is below the requested amount, and with
InsufficientContractBalance when the contract's payout liquidity is
below amount times price; every successful sale had both preconditions;
a rejection produces no state change (the call reverts).  The token's
active flag is not checked. -/
theorem sell_preconditions :
    (∀ (env : FT.Env) (s : FT.S) (c : FT.Addr) (amt : Nat),
        env.kyc c = true → s.paused = false → 0 < amt →
        s.balances c < amt →
        FT.sellTokens env s c amt = .error .InsufficientBalance) ∧
    (∀ (env : FT.Env) (s : FT.S) (c : FT.Addr) (amt : Nat),
        env.kyc c = true → s.paused = false → 0 < amt →
        amt ≤ s.balances c → s.contractEth < amt * s.pricePerToken →
        FT.sellTokens env s c amt = .error .InsufficientContractBalance) ∧
    (∀ (env : FT.Env) (s s' : FT.S) (c : FT.Addr) (amt : Nat),
        FT.sellTokens env s c amt = .ok s' →
        amt ≤ s.balances c ∧ amt * s.pricePerToken ≤ s.contractEth) := by
  refine ⟨?_, ?_, ?_⟩
  · intro env s c amt hk hp ha hb
    unfold FT.sellTokens
    rw [if_neg (by rw [hk]; simp), if_neg (by rw [hp]; simp),
      if_neg (by omega), if_pos hb]
  · intro env s c amt hk hp ha hb hl
    unfold FT.sellTokens
    rw [if_neg (by rw [hk]; simp), if_neg (by rw [hp]; simp),
      if_neg (by omega), if_neg (by omega), if_pos hl]
  · intro env s s' c amt h
    unfold FT.sellTokens at h
    split_ifs at h with h1 h2 h3 h4 h5
    exact ⟨by omega, by omega⟩

/-- Claim C9 witness: the insufficient-balance rejection evaluated at a
concrete state: holder 2 owns 100 shares and tries to sell 200. -/
theorem sell_preconditions_witness :
    FT.sellTokens envP inactiveState 2 200 = .error .InsufficientBalance :=
  sell_preconditions.1 envP inactiveState 2 200 (by decide) rfl
    (by decide) (by decide)

/-- Claim C10: createDistribution checks only the contract's global
balance, never the per-property totalRentCollected accumulator, so it
succeeds whenever the caller owns the property, the contract is not
paused, the amount is positive and covered by the global balance, and
the token is registered; in the concrete trace leading to sT, rent was
only ever deposited for property 1, yet the owner of property 2
successfully creates a distribution of 50 for property 2 although
totalRentCollected for property 2 is 0. -/
theorem create_ignores_property_rent :
    (∀ (env : RD.SEnv) (s : RD.RDState) (sender pid amount : Nat),
        env.propOwner pid = sender → s.paused = false → 0 < amount →
        amount ≤ s.contractBal → s.registered pid = true →
        (RD.createDistributionS env s sender pid amount).isOk = true) ∧
    ((RD.registerFractionalToken envT s0T 9 1).isOk = true ∧
     (RD.registerFractionalToken envT s1T 9 2).isOk = true ∧
     (RD.depositRent envT s2T 5 1 100).isOk = true ∧
     sT.totalRentCollected 1 = 100 ∧ sT.totalRentCollected 2 = 0 ∧
     sT.contractBal = 100 ∧
     (RD.createDistributionS envT sT 6 2 50).isOk = true) := by
  constructor
  · intro env s sender pid amount ho hp ha hb hr
    unfold RD.createDistributionS
    rw [if_neg (by rw [ho]; simp), if_neg (by rw [hp]; simp),
      if_neg (by omega), if_neg (by omega), if_neg (by rw [hr]; simp)]
    rfl
  · exact ⟨by decide, by decide, by decide, by decide, by decide,
      by decide, by decide⟩

/-- Claim C10 witness: the success condition applied to the concrete
cross-property state sT. -/
theorem create_ignores_property_rent_witness :
    (RD.createDistributionS envT sT 6 2 50).isOk = true :=
  create_ignores_property_rent.1 envT sT 6 2 50 (by decide) (by decide)
    (by decide) (by decide) (by decide)

/-! Finset sum helpers for pointwise balance updates. -/

theorem sumUpdMem (T : Finset FT.Addr) (f : FT.Addr → Nat) (u : FT.Addr)
    (v : Nat) (hu : u ∈ T) :
    (∑ a in T, Function.update f u v a) + f u = (∑ a in T, f a) + v := by
  rw [Finset.sum_update_of_mem hu, Finset.sdiff_singleton_eq_erase]
  rw [← Finset.add_sum_erase T f hu]
  omega

theorem sumUpdNotMem (T : Finset FT.Addr) (f : FT.Addr → Nat) (u : FT.Addr)
    (v : Nat) (hu : u ∉ T) :
    (∑ a in T, Function.update f u v a) = ∑ a in T, f a := by
  refine Finset.sum_congr rfl ?_
  intro a ha
  have hne : a ≠ u := by rintro rfl; exact hu ha
  exact Function.update_noteq hne v f

theorem sumInsertZero (x : FT.Addr) (T : Finset FT.Addr) (f : FT.Addr → Nat)
    (h : x ∈ T ∨ f x = 0) :
    (∑ a in insert x T, f a) = ∑ a in T, f a := by
  rcases h with h | h
  · rw [Finset.insert_eq_self.mpr h]
  · by_cases hx : x ∈ T
    · rw [Finset.insert_eq_self.mpr hx]
    · rw [Finset.sum_insert hx, h, zero_add]

/-! Inversion lemmas for the FractionalToken operations. -/

theorem erc20Ok {b : FT.Addr → Nat} {src dst : FT.Addr} {amt : Nat}
    {b' : FT.Addr → Nat} (h : FT.erc20Transfer b src dst amt = .ok b') :
    src ≠ 0 ∧ dst ≠ 0 ∧ amt ≤ b src ∧
    b' = Function.update (Function.update b src (b src - amt)) dst
      (Function.update b src (b src - amt) dst + amt) := by
  unfold FT.erc20Transfer at h
  split_ifs at h with h1 h2 h3
  simp only [Except.ok.injEq] at h
  exact ⟨h1, h2, by omega, h.symm⟩

theorem purchaseOk {env : FT.Env} {s : FT.S} {sn : FT.Addr}
    {amt payment : Nat} {s' : FT.S}
    (h : FT.purchaseTokens env s sn amt payment = .ok s') :
    0 < amt ∧ amt ≤ s.availableSupply ∧ sn ≠ 0 ∧
    amt ≤ s.balances FT.contractAddr ∧
    s'.balances = Function.update
      (Function.update s.balances FT.contractAddr
        (s.balances FT.contractAddr - amt)) sn
      (Function.update s.balances FT.contractAddr
        (s.balances FT.contractAddr - amt) sn + amt) ∧
    s'.availableSupply = s.availableSupply - amt ∧
    s'.tokTotalSupply = s.tokTotalSupply := by
  unfold FT.purchaseTokens at h
  split_ifs at h with h1 h2 h3 h4 h5 h6 h7
  all_goals
    cases herc : FT.erc20Transfer s.balances FT.contractAddr sn amt with
    | error e => rw [herc] at h; simp at h
    | ok b =>
        rw [herc] at h
        simp only [Except.ok.injEq] at h
        obtain ⟨hz, hdz, hle, hb⟩ := erc20Ok herc
        subst h
        exact ⟨by omega, by omega, hdz, hle, hb, rfl, rfl⟩

theorem sellOk {env : FT.Env} {s : FT.S} {sn : FT.Addr} {amt : Nat}
    {s' : FT.S} (h : FT.sellTokens env s sn amt = .ok s') :
    0 < amt ∧ amt ≤ s.balances sn ∧ sn ≠ 0 ∧
    s'.balances = Function.update
      (Function.update s.balances sn (s.balances sn - amt)) FT.contractAddr
      (Function.update s.balances sn (s.balances sn - amt)
        FT.contractAddr + amt) ∧
    s'.availableSupply = s.availableSupply + amt ∧
    s'.tokTotalSupply = s.tokTotalSupply := by
  unfold FT.sellTokens at h
  split_ifs at h with h1 h2 h3 h4 h5
  cases herc : FT.erc20Transfer s.balances sn FT.contractAddr amt with
  | error e => rw [herc] at h; simp at h
  | ok b =>
      rw [herc] at h
      simp only [Except.ok.injEq] at h
      obtain ⟨hz, hdz, hle, hb⟩ := erc20Ok herc
      subst h
      exact ⟨by omega, by omega, hz, hb, rfl, rfl⟩

theorem transferOk {env : FT.Env} {s : FT.S} {sn dst : FT.Addr} {amt : Nat}
    {s' : FT.S} (h : FT.transfer env s sn dst amt = .ok s') :
    sn ≠ 0 ∧ dst ≠ 0 ∧ amt ≤ s.balances sn ∧
    s'.balances = Function.update
      (Function.update s.balances sn (s.balances sn - amt)) dst
      (Function.update s.balances sn (s.balances sn - amt) dst + amt) ∧
    s'.availableSupply = s.availableSupply ∧
    s'.tokTotalSupply = s.tokTotalSupply := by
  unfold FT.transfer at h
  split_ifs at h with h1 h2
  cases herc : FT.erc20Transfer s.balances sn dst amt with
  | error e => rw [herc] at h; simp at h
  | ok b =>
      rw [herc] at h
      simp only [Except.ok.injEq] at h
      obtain ⟨hz, hdz, hle, hb⟩ := erc20Ok herc
      subst h
      exact ⟨hz, hdz, hle, hb, rfl, rfl⟩

/-! Conservation is preserved by every operation of a trace whose
callers are external accounts and whose ERC20 transfers do not target
the token contract itself. -/

theorem conservStable {s s' : FT.S} (hb : s'.balances = s.balances)
    (ha : s'.availableSupply = s.availableSupply)
    (ht : s'.tokTotalSupply = s.tokTotalSupply)
    (hs : FT.Conserv s) : FT.Conserv s' := by
  intro T hT hcov
  unfold FT.holdersSum
  simp only [hb, ha, ht]
  apply hs T hT
  intro x hx hbx
  apply hcov x hx
  rw [hb]
  exact hbx

theorem conservPurchase {env : FT.Env} {s : FT.S} {sn : FT.Addr}
    {amt payment : Nat} {s' : FT.S}
    (h : FT.purchaseTokens env s sn amt payment = .ok s')
    (hsnc : sn ≠ FT.contractAddr) (hs : FT.Conserv s) : FT.Conserv s' := by
  obtain ⟨hpos, hav, hsn0, hble, hb, hav', ht⟩ := purchaseOk h
  intro T hT hcov
  have hgsn : Function.update s.balances FT.contractAddr
      (s.balances FT.contractAddr - amt) sn = s.balances sn :=
    Function.update_noteq hsnc _ _
  have hsnT : sn ∈ T := by
    apply hcov sn hsnc
    rw [hb, Function.update_same, hgsn]
    omega
  have hcov' : FT.Covers s T := by
    intro x hx hbx
    by_cases hxsn : x = sn
    · subst hxsn; exact hsnT
    · apply hcov x hx
      rw [hb, Function.update_noteq hxsn, Function.update_noteq hx]
      exact hbx
  have h0 := hs T hT hcov'
  unfold FT.holdersSum at h0 ⊢
  rw [hav', ht]
  simp only [hb]
  have h1 : (∑ x in T, Function.update s.balances FT.contractAddr
      (s.balances FT.contractAddr - amt) x) = ∑ x in T, s.balances x :=
    sumUpdNotMem T _ _ _ hT
  have h2 := sumUpdMem T (Function.update s.balances FT.contractAddr
      (s.balances FT.contractAddr - amt)) sn
    (Function.update s.balances FT.contractAddr
      (s.balances FT.contractAddr - amt) sn + amt) hsnT
  have h3 : Function.update s.balances FT.contractAddr
      (s.balances FT.contractAddr - amt) sn = s.balances sn := hgsn
  omega

theorem conservSell {env : FT.Env} {s : FT.S} {sn : FT.Addr} {amt : Nat}
    {s' : FT.S} (h : FT.sellTokens env s sn amt = .ok s')
    (hsnc : sn ≠ FT.contractAddr) (hs : FT.Conserv s) : FT.Conserv s' := by
  obtain ⟨hpos, hble, hsn0, hb, hav', ht⟩ := sellOk h
  intro T hT hcov
  have hT' : FT.contractAddr ∉ insert sn T := by
    simp only [Finset.mem_insert]
    push_neg
    exact ⟨fun hq => hsnc hq.symm, hT⟩
  have hcov' : FT.Covers s (insert sn T) := by
    intro x hx hbx
    by_cases hxsn : x = sn
    · subst hxsn; exact Finset.mem_insert_self _ _
    · apply Finset.mem_insert_of_mem
      apply hcov x hx
      rw [hb, Function.update_noteq hx, Function.update_noteq hxsn]
      exact hbx
  have h0 := hs (insert sn T) hT' hcov'
  have e1 := sumUpdMem (insert sn T) s.balances sn (s.balances sn - amt)
    (Finset.mem_insert_self sn T)
  have e2 : (∑ x in insert sn T,
      Function.update s.balances sn (s.balances sn - amt) x)
      = ∑ x in T, Function.update s.balances sn (s.balances sn - amt) x := by
    apply sumInsertZero
    by_cases hsnT : sn ∈ T
    · exact Or.inl hsnT
    · right
      have hz : s'.balances sn = 0 := by
        by_contra hq
        exact hsnT (hcov sn hsnc hq)
      rw [hb, Function.update_noteq hsnc] at hz
      exact hz
  have hgT : (∑ x in T, s'.balances x)
      = ∑ x in T, Function.update s.balances sn (s.balances sn - amt) x := by
    simp only [hb]
    exact sumUpdNotMem T _ _ _ hT
  unfold FT.holdersSum at h0 ⊢
  rw [hav', ht, hgT]
  omega

theorem conservTransfer {env : FT.Env} {s : FT.S} {sn dst : FT.Addr}
    {amt : Nat} {s' : FT.S} (h : FT.transfer env s sn dst amt = .ok s')
    (hsnc : sn ≠ FT.contractAddr) (hdstc : dst ≠ FT.contractAddr)
    (hs : FT.Conserv s) : FT.Conserv s' := by
  obtain ⟨hsn0, hdst0, hble, hb, hav', ht⟩ := transferOk h
  intro T hT hcov
  have hT'' : FT.contractAddr ∉ insert sn (insert dst T) := by
    simp only [Finset.mem_insert]
    push_neg
    exact ⟨fun hq => hsnc hq.symm, fun hq => hdstc hq.symm, hT⟩
  have hcov'' : FT.Covers s (insert sn (insert dst T)) := by
    intro x hx hbx
    by_cases hxs : x = sn
    · subst hxs; exact Finset.mem_insert_self _ _
    apply Finset.mem_insert_of_mem
    by_cases hxd : x = dst
    · subst hxd; exact Finset.mem_insert_self _ _
    apply Finset.mem_insert_of_mem
    apply hcov x hx
    rw [hb, Function.update_noteq hxd, Function.update_noteq hxs]
    exact hbx
  have h0 := hs _ hT'' hcov''
  have e1 := sumUpdMem (insert sn (insert dst T)) s.balances sn
    (s.balances sn - amt) (Finset.mem_insert_self _ _)
  have e2 := sumUpdMem (insert sn (insert dst T))
    (Function.update s.balances sn (s.balances sn - amt)) dst
    (Function.update s.balances sn (s.balances sn - amt) dst + amt)
    (Finset.mem_insert_of_mem (Finset.mem_insert_self _ _))
  have hz1 : sn ∈ insert dst T ∨
      Function.update (Function.update s.balances sn (s.balances sn - amt))
        dst (Function.update s.balances sn (s.balances sn - amt) dst + amt)
        sn = 0 := by
    by_cases hmem : sn ∈ insert dst T
    · exact Or.inl hmem
    · right
      have hsT : sn ∉ T := fun hq => hmem (Finset.mem_insert_of_mem hq)
      have hz : s'.balances sn = 0 := by
        by_contra hq
        exact hsT (hcov sn hsnc hq)
      rw [hb] at hz
      exact hz
  have hz2 : dst ∈ T ∨
      Function.update (Function.update s.balances sn (s.balances sn - amt))
        dst (Function.update s.balances sn (s.balances sn - amt) dst + amt)
        dst = 0 := by
    by_cases hmem : dst ∈ T
    · exact Or.inl hmem
    · right
      have hz : s'.balances dst = 0 := by
        by_contra hq
        exact hmem (hcov dst hdstc hq)
      rw [hb] at hz
      exact hz
  have e3 : (∑ x in insert sn (insert dst T), s'.balances x)
      = ∑ x in insert dst T, s'.balances x := by
    simp only [hb]
    exact sumInsertZero sn (insert dst T) _ hz1
  have e4 : (∑ x in insert dst T, s'.balances x)
      = ∑ x in T, s'.balances x := by
    simp only [hb]
    exact sumInsertZero dst T _ hz2
  have e5 : (∑ x in insert sn (insert dst T), s'.balances x)
      = ∑ x in insert sn (insert dst T),
          Function.update (Function.update s.balances sn
            (s.balances sn - amt)) dst
            (Function.update s.balances sn (s.balances sn - amt) dst
              + amt) x := by
    simp only [hb]
  unfold FT.holdersSum at h0 ⊢
  rw [hav', ht]
  omega

theorem conservStep (env : FT.Env) (s : FT.S) (op : FT.Op)
    (hc : op.callerNotContract) (hn : op.noTransferToContract)
    (hs : FT.Conserv s) : FT.Conserv (FT.applyOp env s op) := by
  cases op with
  | purchase sn a p =>
      cases h : FT.purchaseTokens env s sn a p with
      | error e => simpa only [FT.applyOp, h] using hs
      | ok s' =>
          simp only [FT.applyOp, h]
          exact conservPurchase h hc hs
  | sell sn a =>
      cases h : FT.sellTokens env s sn a with
      | error e => simpa only [FT.applyOp, h] using hs
      | ok s' =>
          simp only [FT.applyOp, h]
          exact conservSell h hc hs
  | xfer sn dst a =>
      cases h : FT.transfer env s sn dst a with
      | error e => simpa only [FT.applyOp, h] using hs
      | ok s' =>
          simp only [FT.applyOp, h]
          exact conservTransfer h hc hn hs
  | pauseC sn =>
      cases h : FT.pauseContract env s sn with
      | error e => simpa only [FT.applyOp, h] using hs
      | ok s' =>
          simp only [FT.applyOp, h]
          unfold FT.pauseContract at h
          split_ifs at h
          simp only [Except.ok.injEq] at h
          subst h
          exact conservStable rfl rfl rfl hs
  | unpauseC sn =>
      cases h : FT.unpauseContract env s sn with
      | error e => simpa only [FT.applyOp, h] using hs
      | ok s' =>
          simp only [FT.applyOp, h]
          unfold FT.unpauseContract at h
          split_ifs at h
          simp only [Except.ok.injEq] at h
          subst h
          exact conservStable rfl rfl rfl hs
  | setStatus sn b =>
      cases h : FT.setTokenStatus env s sn b with
      | error e => simpa only [FT.applyOp, h] using hs
      | ok s' =>
          simp only [FT.applyOp, h]
          unfold FT.setTokenStatus at h
          split_ifs at h
          simp only [Except.ok.injEq] at h
          subst h
          exact conservStable rfl rfl rfl hs
  | deposit sn v =>
      simp only [FT.applyOp]
      exact conservStable rfl rfl rfl hs

theorem applyOpTok (env : FT.Env) (s : FT.S) (op : FT.Op) :
    (FT.applyOp env s op).tokTotalSupply = s.tokTotalSupply := by
  cases op with
  | purchase sn a p =>
      cases h : FT.purchaseTokens env s sn a p with
      | error e => simp only [FT.applyOp, h]
      | ok s' =>
          simp only [FT.applyOp, h]
          exact (purchaseOk h).2.2.2.2.2.2
  | sell sn a =>
      cases h : FT.sellTokens env s sn a with
      | error e => simp only [FT.applyOp, h]
      | ok s' =>
          simp only [FT.applyOp, h]
          exact (sellOk h).2.2.2.2.2
  | xfer sn dst a =>
      cases h : FT.transfer env s sn dst a with
      | error e => simp only [FT.applyOp, h]
      | ok s' =>
          simp only [FT.applyOp, h]
          exact (transferOk h).2.2.2.2.2
  | pauseC sn =>
      cases h : FT.pauseContract env s sn with
      | error e => simp only [FT.applyOp, h]
      | ok s' =>
          simp only [FT.applyOp, h]
          unfold FT.pauseContract at h
          split_ifs at h
          simp only [Except.ok.injEq] at h
          subst h
          rfl
  | unpauseC sn =>
      cases h : FT.unpauseContract env s sn with
      | error e => simp only [FT.applyOp, h]
      | ok s' =>
          simp only [FT.applyOp, h]
          unfold FT.unpauseContract at h
          split_ifs at h
          simp only [Except.ok.injEq] at h
          subst h
          rfl
  | setStatus sn b =>
      cases h : FT.setTokenStatus env s sn b with
      | error e => simp only [FT.applyOp, h]
      | ok s' =>
          simp only [FT.applyOp, h]
          unfold FT.setTokenStatus at h
          split_ifs at h
          simp only [Except.ok.injEq] at h
          subst h
          rfl
  | deposit sn v => rfl

theorem runConserv (env : FT.Env) (ops : List FT.Op) : ∀ s : FT.S,
    (∀ op ∈ ops, op.callerNotContract ∧ op.noTransferToContract) →
    FT.Conserv s → FT.Conserv (FT.run env s ops) := by
  induction ops with
  | nil => intro s _ hs; exact hs
  | cons op ops ih =>
      intro s h hs
      have h1 := h op (List.mem_cons_self op ops)
      have h2 : ∀ o ∈ ops, o.callerNotContract ∧ o.noTransferToContract :=
        fun o ho => h o (List.mem_cons_of_mem op ho)
      exact ih (FT.applyOp env s op) h2 (conservStep env s op h1.1 h1.2 hs)

theorem runTok (env : FT.Env) (ops : List FT.Op) : ∀ s : FT.S,
    (FT.run env s ops).tokTotalSupply = s.tokTotalSupply := by
  induction ops with
  | nil => intro s; rfl
  | cons op ops ih =>
      intro s
      rw [show FT.run env s (op :: ops)
        = FT.run env (FT.applyOp env s op) ops from rfl]
      rw [ih, applyOpTok]

theorem initConserv (total price : Nat) :
    FT.Conserv (FT.initState total price) := by
  intro T hT hcov
  unfold FT.holdersSum
  have h1 : (∑ x in T, (FT.initState total price).balances x)
      = ∑ x in T, (fun _ => (0:Nat)) x := by
    show (∑ x in T, Function.update (fun _ => 0) FT.contractAddr total x) = _
    exact sumUpdNotMem T _ _ _ hT
  rw [h1]
  simp [FT.initState]

/-- Claim C1 (amended): conservation of share supply.  Starting from
the constructor state (all tokens minted to the contract and
availableSupply equal to totalSupply), every trace of purchases, sales,
ERC20 transfers and administrative calls by external callers preserves
the invariant that the holder balances plus availableSupply equal the
immutable total supply — provided no ERC20 transfer targets the token
contract's own address.  A transfer to the contract itself (possible
once the contract address is KYC-verified) breaks the invariant, which
is the one amendment to the claim. -/
theorem ft_conservation :
    ∀ (env : FT.Env) (total price : Nat) (ops : List FT.Op),
      (∀ op ∈ ops, op.callerNotContract ∧ op.noTransferToContract) →
      FT.Conserv (FT.run env (FT.initState total price) ops) ∧
      (FT.run env (FT.initState total price) ops).tokTotalSupply = total := by
  intro env total price ops hops
  refine ⟨runConserv env ops _ hops (initConserv total price), ?_⟩
  rw [runTok]
  rfl

/-- Claim C1 witness: conservation evaluated at the constructor state
with total supply 1000 (the empty trace). -/
theorem ft_conservation_witness :
    FT.holdersSum (FT.initState 1000 1) ∅
        + (FT.initState 1000 1).availableSupply
      = (FT.initState 1000 1).tokTotalSupply := by
  have h := ft_conservation exEnv 1000 1 [] (by simp)
  refine h.1 ∅ (by simp) ?_
  intro x hx hbx
  exfalso
  apply hbx
  show Function.update (fun _ => 0) FT.contractAddr 1000 x = 0
  rw [Function.update_noteq hx]

/-- Claim C1 counterexample: conservation as stated fails on the code.
In an environment where the PropertyNFT owner has KYC-verified every
address (including the token contract's own), external caller 2 buys 10
shares and then ERC20-transfers 5 of them to the token contract's
address; the resulting reachable state has holder balances 5 and
availableSupply 990 against a total supply of 1000. -/
theorem ft_conservation_cex :
    ¬ (∀ (env : FT.Env) (total price : Nat) (ops : List FT.Op),
        (∀ op ∈ ops, op.callerNotContract) →
        FT.Conserv (FT.run env (FT.initState total price) ops)) := by
  intro h
  have hops : ∀ op ∈ exOps, op.callerNotContract := by
    intro op hop
    simp only [exOps, List.mem_cons, List.not_mem_nil, or_false] at hop
    rcases hop with rfl | rfl <;>
      simp [FT.Op.callerNotContract, FT.Op.caller, FT.contractAddr]
  have hc := h exEnv 1000 1 exOps hops
  have hcov2 : FT.Covers (FT.run exEnv (FT.initState 1000 1) exOps) {2} := by
    intro x hx hx0
    by_cases hx2 : x = 2
    · simp [hx2]
    · exfalso
      apply hx0
      have hbal : (FT.run exEnv (FT.initState 1000 1) exOps).balances
          = Function.update (Function.update (Function.update
              (Function.update (Function.update (fun _ => 0)
                FT.contractAddr 1000) FT.contractAddr 990) 2 10) 2 5)
              FT.contractAddr 995 := rfl
      rw [hbal, Function.update_noteq hx, Function.update_noteq hx2,
        Function.update_noteq hx2, Function.update_noteq hx,
        Function.update_noteq hx]
  have h2 := hc {2} (by decide) hcov2
  rw [show FT.holdersSum (FT.run exEnv (FT.initState 1000 1) exOps) {2} = 5
      from by decide,
    show (FT.run exEnv (FT.initState 1000 1) exOps).availableSupply = 990
      from by decide,
    show (FT.run exEnv (FT.initState 1000 1) exOps).tokTotalSupply = 1000
      from by decide] at h2
  omega
